import Mathlib

/-!
# Course schedule recommender (`src/main.cpp`): embedding and verification

The C++ program keeps the catalog (`g_allCourses`) and the student (`g_user`) in
global variables; here they are explicit parameters.  Conventions of the embedding:

* `int` values (credits, accumulated credits) are mathematical integers `Int`; the
  embedding describes every run in which no signed `int` addition overflows.
* `double` values (scores) are exact rationals `ℚ`; rounding is not modelled.
* `std::set<string>` is `Finset String`; `std::vector<T>` is `List T`
  (`push_back x` appends `[x]`, `pop_back` is `List.dropLast`).
* `std::sort` is library code: `getTopRecommendations` takes the sorting routine as a
  parameter, and the theorems assume only what the C++ standard promises of it
  (`StdSortContract`).
-/

namespace CoursePlanner

/-! ## Data model (`src/main.cpp` lines 27-46, `src/struct.cpp`) -/

/-- One course of the catalog (`struct Course`). -/
structure Course where
  id : String
  name : String
  credits : Int
  prereqs : List String
  tags : List String
  deriving DecidableEq

/-- State of the student (`struct UserProgress`). -/
structure UserProgress where
  userId : String
  completed : Finset String
  interests : List String
  semester : Int

/-- Upper bound on the credits of one term (`const int MAX_CREDITS = 22`). -/
def MAX_CREDITS : Int := 22

/-! ## Prerequisite check (lines 185-192) -/

/-- The `for` loop of `hasAllPrerequisites`: the first prerequisite that is not in
`completed` returns `false`; running off the end returns `true`. -/
def hasAllPrerequisitesLoop (completed : Finset String) : List String → Bool
  | [] => true
  | pre :: rest =>
    if pre ∉ completed then false
    else hasAllPrerequisitesLoop completed rest

/-- Embedding of `bool hasAllPrerequisites(const Course& course)`. -/
def hasAllPrerequisites (g_user : UserProgress) (course : Course) : Bool :=
  hasAllPrerequisitesLoop g_user.completed course.prereqs

/-! ## Interest score (lines 196-208) -/

/-- The inner loop of `calculateInterestScore` for one tag: `true` when some interest
equals the tag (the `matchCount++; break;` exit), `false` when the loop runs to its end. -/
def tagMatchesInterest (tag : String) : List String → Bool
  | [] => false
  | interest :: rest =>
    if tag = interest then true
    else tagMatchesInterest tag rest

/-- The outer loop of `calculateInterestScore`: the value of `matchCount` after the
tags have been visited, starting from `matchCount`. -/
def countMatches (interests : List String) : List String → Nat → Nat
  | [], matchCount => matchCount
  | tag :: rest, matchCount =>
    if tagMatchesInterest tag interests then countMatches interests rest (matchCount + 1)
    else countMatches interests rest matchCount

/-- Embedding of `double calculateInterestScore(const Course& course)`. -/
def calculateInterestScore (g_user : UserProgress) (course : Course) : ℚ :=
  if g_user.interests.isEmpty then 0
  else
    let matchCount := countMatches g_user.interests course.tags 0
    (matchCount : ℚ) / (g_user.interests.length : ℚ)

/-! ## Backtracking enumeration (lines 212-246) -/

/-- Embedding of `void backtrack(index, candidates, currentCredits, currentPlan, allPlans)`.
The two reference parameters `currentPlan` and `allPlans` are threaded through: the
result is their value when the call returns.  An `index` beyond `candidates.size()`
is outside the defined behaviour of the source (it would read `candidates[index]` out
of bounds); the embedding leaves the state unchanged there. -/
def backtrack (index : Nat) (candidates : List Course) (currentCredits : Int)
    (currentPlan : List Course) (allPlans : List (List Course)) :
    List Course × List (List Course) :=
  if currentCredits > MAX_CREDITS then (currentPlan, allPlans)
  else if index = candidates.length then (currentPlan, allPlans ++ [currentPlan])
  else if h : index < candidates.length then
    let s1 := backtrack (index + 1) candidates currentCredits currentPlan allPlans
    if currentCredits + candidates[index].credits ≤ MAX_CREDITS then
      let s2 := backtrack (index + 1) candidates (currentCredits + candidates[index].credits)
        (s1.1 ++ [candidates[index]]) s1.2
      (s2.1.dropLast, s2.2)
    else s1
  else (currentPlan, allPlans)
termination_by candidates.length - index

/-- Embedding of `generateAllValidSchedules(available)`. -/
def generateAllValidSchedules (available : List Course) : List (List Course) :=
  (backtrack 0 available 0 [] []).2

/-! ## Plan score (lines 250-261) -/

/-- The `for` loop of `calculatePlanScore`: the pair `(totalInterest, totalCredits)`
after the plan has been visited, starting from the given pair. -/
def planTotals (g_user : UserProgress) : List Course → ℚ × Int → ℚ × Int
  | [], acc => acc
  | c :: rest, acc =>
    planTotals g_user rest (acc.1 + calculateInterestScore g_user c, acc.2 + c.credits)

/-- Embedding of `double calculatePlanScore(const vector<Course>& plan)`. -/
def calculatePlanScore (g_user : UserProgress) (plan : List Course) : ℚ :=
  if plan.isEmpty then 0
  else
    let totals := planTotals g_user plan (0, 0)
    let creditUtilization : ℚ := (totals.2 : ℚ) / (MAX_CREDITS : ℚ)
    (totals.1 / (plan.length : ℚ)) * (7 / 10) + creditUtilization * (3 / 10)

/-! ## Available courses (lines 265-271 and, with the same text, lines 397-403) -/

/-- The loop `for (const auto& c : g_allCourses)` that fills `available`: a completed
course is skipped (`continue`), a course with all prerequisites is appended. -/
def availableLoop (g_user : UserProgress) : List Course → List Course → List Course
  | [], available => available
  | c :: rest, available =>
    if c.id ∈ g_user.completed then availableLoop g_user rest available
    else if hasAllPrerequisites g_user c then availableLoop g_user rest (available ++ [c])
    else availableLoop g_user rest available

/-- The list `available` built by step 1 of `getTopRecommendations`. -/
def availableCourses (g_allCourses : List Course) (g_user : UserProgress) : List Course :=
  availableLoop g_user g_allCourses []

/-- The list `available` built by `case 1` of the menu in `main`. -/
def menuAvailableCourses (g_allCourses : List Course) (g_user : UserProgress) : List Course :=
  availableLoop g_user g_allCourses []

/-! ## Ranking (lines 263-294) -/

/-- The conversion `(size_t)topN` of an `int` to a 64-bit unsigned value. -/
def toSizeT (topN : Int) : Nat := (topN % 2 ^ 64).toNat

/-- The comparator handed to `std::sort`: `calculatePlanScore(a) > calculatePlanScore(b)`. -/
def scoreGreater (g_user : UserProgress) (a b : List Course) : Bool :=
  decide (calculatePlanScore g_user a > calculatePlanScore g_user b)

/-- What `std::sort` requires of its comparator: a strict weak ordering. -/
structure StrictWeakOrdering {α : Type} (comp : α → α → Bool) : Prop where
  irrefl : ∀ a, comp a a = false
  trans : ∀ a b c, comp a b = true → comp b c = true → comp a c = true
  incomp_trans : ∀ a b c, comp a b = false → comp b a = false →
    comp b c = false → comp c b = false → comp a c = false ∧ comp c a = false

/-- What the C++ standard promises of `std::sort(first, last, comp)` for a strict weak
ordering `comp`: the range is rearranged (a permutation) so that no later element is
`comp`-before an earlier one.  Nothing is promised about the order of equivalent
elements. -/
def StdSortContract (sort : (List Course → List Course → Bool) →
    List (List Course) → List (List Course)) : Prop :=
  ∀ comp l, StrictWeakOrdering comp →
    (sort comp l).Perm l ∧ (sort comp l).Pairwise (fun a b => comp b a = false)

/-- Embedding of `getTopRecommendations(int topN)`, with the `std::sort` routine as a
parameter. -/
def getTopRecommendations
    (sort : (List Course → List Course → Bool) → List (List Course) → List (List Course))
    (g_allCourses : List Course) (g_user : UserProgress) (topN : Int) :
    List (List Course) :=
  let available := availableCourses g_allCourses g_user
  if available.isEmpty then []
  else
    let allPlans := generateAllValidSchedules available
    if allPlans.isEmpty then []
    else
      let sorted := sort (scoreGreater g_user) allPlans
      if sorted.length > toSizeT topN then sorted.take (toSizeT topN)
      else sorted

/-! ## Display of the recommendations (lines 320-346) -/

/-- The divisors of the statement `avgInterest /= plan.size()` of
`displayRecommendations`, one for each plan of `getTopRecommendations(3)` in the order
of the loop.  When the recommendations are empty the function returns before the
loop and there is no divisor. -/
def displayRecommendationsDivisors
    (sort : (List Course → List Course → Bool) → List (List Course) → List (List Course))
    (g_allCourses : List Course) (g_user : UserProgress) : List Nat :=
  (getTopRecommendations sort g_allCourses g_user 3).map List.length

/-! ## Two routines that meet the contract of `std::sort` -/

/-- Insertion sort by `comp`; equivalent elements keep their order. -/
def insertionSortBy (comp : List Course → List Course → Bool)
    (l : List (List Course)) : List (List Course) :=
  l.insertionSort (fun a b => comp b a = false)

/-- Insertion sort by `comp` of the reversed range; equivalent elements come out in
the reverse of their input order. -/
def reverseInsertionSortBy (comp : List Course → List Course → Bool)
    (l : List (List Course)) : List (List Course) :=
  l.reverse.insertionSort (fun a b => comp b a = false)

/-! ## Data of the source: the built-in catalog (lines 79-87) and default user (lines 154-157) -/

def cs101 : Course := ⟨"CS101", "程序设计基础", 4, [], ["AI", "编程"]⟩
def cs102 : Course := ⟨"CS102", "数据结构", 3, ["CS101"], ["AI", "算法"]⟩
def cs103 : Course := ⟨"CS103", "计算机组成", 3, ["CS101"], ["系统", "硬件"]⟩
def cs201 : Course := ⟨"CS201", "操作系统", 3, ["CS102", "CS103"], ["系统"]⟩
def cs202 : Course := ⟨"CS202", "机器学习导论", 3, ["CS102", "MATH201"], ["AI", "数据科学"]⟩
def math201 : Course := ⟨"MATH201", "概率统计", 3, [], ["数学", "AI"]⟩
def math202 : Course := ⟨"MATH202", "线性代数", 3, [], ["数学"]⟩

/-- The catalog installed when `courses.txt` cannot be opened. -/
def builtinCourses : List Course := [cs101, cs102, cs103, cs201, cs202, math201, math202]

/-- The user installed when `user_progress.txt` cannot be opened. -/
def defaultUser : UserProgress := ⟨"U1001", {"CS101", "MATH201"}, ["AI", "数据科学"], 3⟩

/-- A course as the loader builds it from a line whose tag field is `AI,AI`
(`split` keeps repeated tokens). -/
def repeatedTagCourse : Course := ⟨"X100", "Seminar", 2, [], ["AI", "AI"]⟩

/-- A user whose only interest is `AI` and who has completed nothing. -/
def aiUser : UserProgress := ⟨"U2000", ∅, ["AI"], 1⟩

/-- The catalog of the concrete scenario of the specification. -/
def scenarioCatalog : List Course := [cs101, cs102, math201]

/-- The user of the concrete scenario: `CS101` completed, the single interest `AI`. -/
def scenarioUser : UserProgress := ⟨"U1001", {"CS101"}, ["AI"], 2⟩

/-- A course whose prerequisite `CS999` is the id of no course of its catalog. -/
def danglingCourse : Course := ⟨"CS900", "Capstone", 3, ["CS999"], ["AI"]⟩

/-- A user whose completed list, as `loadUserProgress` reads it, names `CS999`. -/
def danglingUser : UserProgress := ⟨"U3000", {"CS999"}, ["AI"], 2⟩

/-- A user who has completed every built-in course except `CS202`. -/
def nearlyDoneUser : UserProgress :=
  ⟨"U4000", {"CS101", "CS102", "CS103", "CS201", "MATH201", "MATH202"}, ["AI"], 7⟩

/-! ## Auxiliary description of the enumeration -/

/-- The plans, relative to the current plan, that a call of `backtrack` appends when
the candidates still to be visited are the given list and the accumulated credits are
`cur`: first those of the skip branch, then those of the take branch. -/
def plansFrom : List Course → Int → List (List Course)
  | [], cur => if cur > MAX_CREDITS then [] else [[]]
  | c :: cs, cur =>
    if cur > MAX_CREDITS then []
    else plansFrom cs cur ++
      (if cur + c.credits ≤ MAX_CREDITS then (plansFrom cs (cur + c.credits)).map (c :: ·)
       else [])

/-- Total credits of a plan. -/
def planCredits (plan : List Course) : Int := (plan.map Course.credits).sum

/-- Mean of `calculateInterestScore` over the courses of a plan; 0 for the empty plan. -/
def meanInterest (g_user : UserProgress) (plan : List Course) : ℚ :=
  if plan = [] then 0
  else (plan.map (calculateInterestScore g_user)).sum / (plan.length : ℚ)

/-- The enumeration without pruning: depth-first over the candidates, at each course
first the plans that skip it, then the plans that take it; all `2 ^ n` subsequences. -/
def unprunedPlans : List Course → List (List Course)
  | [] => [[]]
  | c :: cs => unprunedPlans cs ++ (unprunedPlans cs).map (c :: ·)

theorem backtrack_eq_plansFrom (rest : List Course) :
    ∀ (index : Nat) (candidates : List Course) (cur : Int) (cp : List Course)
      (ap : List (List Course)),
      candidates.drop index = rest → index ≤ candidates.length →
      backtrack index candidates cur cp ap
        = (cp, ap ++ (plansFrom rest cur).map (cp ++ ·)) := by
  induction rest with
  | nil =>
    intro index candidates cur cp ap hdrop hle
    have hlen : index = candidates.length := by
      have := List.drop_eq_nil_iff.mp hdrop
      omega
    rw [backtrack]
    by_cases hc : cur > MAX_CREDITS
    · simp [plansFrom, hc]
    · simp [plansFrom, hc, hlen]
  | cons c cs ih =>
    intro index candidates cur cp ap hdrop hle
    have hlt : index < candidates.length := by
      by_contra hge
      have : candidates.drop index = [] := List.drop_eq_nil_iff.mpr (by omega)
      rw [this] at hdrop
      cases hdrop
    have hget : candidates[index] = c := by
      have h1 := List.drop_eq_getElem_cons hlt
      rw [hdrop] at h1
      exact (List.cons.inj h1).1.symm
    have hdrop1 : candidates.drop (index + 1) = cs := by
      have h1 := List.drop_eq_getElem_cons hlt
      rw [hdrop] at h1
      exact (List.cons.inj h1).2.symm
    rw [backtrack]
    by_cases hc : cur > MAX_CREDITS
    · simp [plansFrom, hc]
    · have hne : index ≠ candidates.length := by omega
      simp only [hc, hne, hlt, if_false, dif_pos, hget]
      rw [ih (index + 1) candidates cur cp ap hdrop1 (by omega)]
      by_cases ht : cur + c.credits ≤ MAX_CREDITS
      · simp only [ht, if_true]
        rw [ih (index + 1) candidates (cur + c.credits) (cp ++ [c]) _ hdrop1 (by omega)]
        simp [plansFrom, hc, ht, List.map_append, Function.comp_def]
      · simp [plansFrom, hc, ht]

theorem generateAllValidSchedules_eq_plansFrom (available : List Course) :
    generateAllValidSchedules available = plansFrom available 0 := by
  unfold generateAllValidSchedules
  rw [backtrack_eq_plansFrom available 0 available 0 [] [] rfl (Nat.zero_le _)]
  simp

theorem plansFrom_sublist (l : List Course) :
    ∀ (cur : Int) (p : List Course), p ∈ plansFrom l cur → p.Sublist l := by
  induction l with
  | nil =>
    intro cur p hp
    by_cases hc : cur > MAX_CREDITS
    · simp [plansFrom, hc] at hp
    · simp [plansFrom, hc] at hp
      simp [hp]
  | cons c cs ih =>
    intro cur p hp
    by_cases hc : cur > MAX_CREDITS
    · simp [plansFrom, hc] at hp
    · simp only [plansFrom, hc, if_false, List.mem_append] at hp
      rcases hp with hp | hp
      · exact (ih cur p hp).cons c
      · by_cases ht : cur + c.credits ≤ MAX_CREDITS
        · simp only [ht, if_true, List.mem_map] at hp
          obtain ⟨q, hq, rfl⟩ := hp
          exact (ih _ q hq).cons₂ c
        · simp [ht] at hp

theorem plansFrom_credits (l : List Course) :
    ∀ (cur : Int) (p : List Course), p ∈ plansFrom l cur →
      cur + planCredits p ≤ MAX_CREDITS := by
  induction l with
  | nil =>
    intro cur p hp
    by_cases hc : cur > MAX_CREDITS
    · simp [plansFrom, hc] at hp
    · simp [plansFrom, hc] at hp
      subst hp
      simp only [planCredits, List.map_nil, List.sum_nil]
      omega
  | cons c cs ih =>
    intro cur p hp
    by_cases hc : cur > MAX_CREDITS
    · simp [plansFrom, hc] at hp
    · simp only [plansFrom, hc, if_false, List.mem_append] at hp
      rcases hp with hp | hp
      · exact ih cur p hp
      · by_cases ht : cur + c.credits ≤ MAX_CREDITS
        · simp only [ht, if_true, List.mem_map] at hp
          obtain ⟨q, hq, rfl⟩ := hp
          have := ih _ q hq
          simp only [planCredits, List.map_cons, List.sum_cons] at this ⊢
          omega
        · simp [ht] at hp

theorem planCredits_nonneg (s : List Course) (hpos : ∀ c ∈ s, c.credits > 0) :
    0 ≤ planCredits s := by
  induction s with
  | nil => simp [planCredits]
  | cons c cs ih =>
    have h1 := hpos c (List.mem_cons_self _ _)
    have h2 := ih (fun d hd => hpos d (List.mem_cons_of_mem _ hd))
    simp only [planCredits, List.map_cons, List.sum_cons] at h2 ⊢
    omega

theorem plansFrom_complete {s l : List Course} (hsub : s.Sublist l) :
    ∀ (cur : Int), (∀ c ∈ l, c.credits > 0) → cur + planCredits s ≤ MAX_CREDITS →
      s ∈ plansFrom l cur := by
  induction hsub with
  | slnil =>
    intro cur _ hsum
    have : ¬ cur > MAX_CREDITS := by
      simp only [planCredits, List.map_nil, List.sum_nil] at hsum
      omega
    simp [plansFrom, this]
  | @cons s cs c hs ih =>
    intro cur hpos hsum
    have hs0 : 0 ≤ planCredits s :=
      planCredits_nonneg s (fun d hd => hpos d (List.mem_cons_of_mem _ (hs.subset hd)))
    have hc : ¬ cur > MAX_CREDITS := by omega
    simp only [plansFrom, hc, if_false, List.mem_append]
    exact Or.inl (ih cur (fun d hd => hpos d (List.mem_cons_of_mem _ hd)) hsum)
  | @cons₂ s cs c hs ih =>
    intro cur hpos hsum
    have hs0 : 0 ≤ planCredits s :=
      planCredits_nonneg s (fun d hd => hpos d (List.mem_cons_of_mem _ (hs.subset hd)))
    have hcpos := hpos c (List.mem_cons_self _ _)
    simp only [planCredits, List.map_cons, List.sum_cons] at hsum hs0
    have hc : ¬ cur > MAX_CREDITS := by omega
    have ht : cur + c.credits ≤ MAX_CREDITS := by omega
    simp only [plansFrom, hc, ht, if_false, if_true, List.mem_append, List.mem_map]
    refine Or.inr ⟨s, ih (cur + c.credits) (fun d hd => hpos d (List.mem_cons_of_mem _ hd)) ?_, rfl⟩
    simp only [planCredits]
    omega

theorem hasAllPrerequisitesLoop_iff (completed : Finset String) (prereqs : List String) :
    hasAllPrerequisitesLoop completed prereqs = true ↔ ∀ pre ∈ prereqs, pre ∈ completed := by
  induction prereqs with
  | nil => simp [hasAllPrerequisitesLoop]
  | cons pre rest ih =>
    by_cases h : pre ∈ completed
    · simp [hasAllPrerequisitesLoop, h, ih]
    · simp [hasAllPrerequisitesLoop, h]

theorem availableLoop_eq_filter (g_user : UserProgress) (catalog : List Course) :
    ∀ available : List Course,
      availableLoop g_user catalog available
        = available ++ catalog.filter
            (fun c => decide (c.id ∉ g_user.completed) && hasAllPrerequisites g_user c) := by
  induction catalog with
  | nil => intro available; simp [availableLoop]
  | cons c rest ih =>
    intro available
    by_cases h1 : c.id ∈ g_user.completed
    · simp [availableLoop, h1, ih]
    · by_cases h2 : hasAllPrerequisites g_user c = true
      · simp [availableLoop, h1, h2, ih]
      · simp [availableLoop, h1, h2, ih]

/-! ## Claims about the enumeration -/

/-- C1: when every available course has credits > 0, `generateAllValidSchedules`
contains every order-preserving subsequence of `available` whose credits sum to at
most 22, and every plan it contains is an order-preserving subsequence of `available`. -/
theorem generateAllValidSchedules_complete_and_ordered (available : List Course)
    (hpos : ∀ c ∈ available, c.credits > 0) :
    (∀ s : List Course, s.Sublist available → (s.map Course.credits).sum ≤ 22 →
        s ∈ generateAllValidSchedules available) ∧
    (∀ p : List Course, p ∈ generateAllValidSchedules available → p.Sublist available) := by
  rw [generateAllValidSchedules_eq_plansFrom]
  refine ⟨fun s hs hsum => plansFrom_complete hs 0 hpos ?_, fun p hp => plansFrom_sublist _ 0 p hp⟩
  simp only [planCredits, MAX_CREDITS]
  omega

/-- Witness of C1 on the three courses open to the default user of the source. -/
theorem generateAllValidSchedules_complete_and_ordered_witness :
    (∀ c ∈ [cs102, cs103, math202], c.credits > 0) ∧
    ((∀ s : List Course, s.Sublist [cs102, cs103, math202] →
        (s.map Course.credits).sum ≤ 22 →
        s ∈ generateAllValidSchedules [cs102, cs103, math202]) ∧
     (∀ p : List Course, p ∈ generateAllValidSchedules [cs102, cs103, math202] →
        p.Sublist [cs102, cs103, math202])) :=
  ⟨by decide, generateAllValidSchedules_complete_and_ordered [cs102, cs103, math202] (by decide)⟩

/-- C2: whatever the credit values, every plan produced by `generateAllValidSchedules`
has a sum of credits of at most 22. -/
theorem generateAllValidSchedules_credits_le (available : List Course) (p : List Course)
    (hp : p ∈ generateAllValidSchedules available) :
    (p.map Course.credits).sum ≤ 22 := by
  rw [generateAllValidSchedules_eq_plansFrom] at hp
  have := plansFrom_credits available 0 p hp
  simp only [planCredits, MAX_CREDITS] at this
  omega

/-- Witness of C2: the plan `[cs102, math202]` among the plans of three courses. -/
theorem generateAllValidSchedules_credits_le_witness :
    [cs102, math202] ∈ generateAllValidSchedules [cs102, cs103, math202] ∧
    ([cs102, math202].map Course.credits).sum ≤ 22 :=
  ⟨by rw [generateAllValidSchedules_eq_plansFrom]; decide,
   generateAllValidSchedules_credits_le [cs102, cs103, math202] [cs102, math202]
     (by rw [generateAllValidSchedules_eq_plansFrom]; decide)⟩

/-! ## Claims about eligibility -/

/-- C3: `hasAllPrerequisites` is true exactly when every identifier of `course.prereqs`
is in the completed set of the profile; in particular it is true for a course with no
prerequisites, whatever the profile. -/
theorem hasAllPrerequisites_iff (g_user : UserProgress) (course : Course) :
    (hasAllPrerequisites g_user course = true ↔
        ∀ pre ∈ course.prereqs, pre ∈ g_user.completed) ∧
    (course.prereqs = [] → hasAllPrerequisites g_user course = true) := by
  constructor
  · exact hasAllPrerequisitesLoop_iff _ _
  · intro h
    simp [hasAllPrerequisites, h, hasAllPrerequisitesLoop]

/-- Witness of C3: `cs101` has no prerequisites and is eligible for the default user. -/
theorem hasAllPrerequisites_iff_witness :
    cs101.prereqs = [] ∧ hasAllPrerequisites defaultUser cs101 = true :=
  ⟨rfl, (hasAllPrerequisites_iff defaultUser cs101).2 rfl⟩

/-- C4: the available list built in `getTopRecommendations`, and the one built by
menu option 1, is the catalog filtered, in catalog order, to the courses whose id is
not completed and for which `hasAllPrerequisites` holds; hence it contains no course
whose id is in the completed set. -/
theorem availableCourses_eq_filter (g_allCourses : List Course) (g_user : UserProgress) :
    availableCourses g_allCourses g_user
        = g_allCourses.filter
            (fun c => decide (c.id ∉ g_user.completed) && hasAllPrerequisites g_user c) ∧
    menuAvailableCourses g_allCourses g_user
        = g_allCourses.filter
            (fun c => decide (c.id ∉ g_user.completed) && hasAllPrerequisites g_user c) ∧
    (∀ c ∈ availableCourses g_allCourses g_user, c.id ∉ g_user.completed) ∧
    (∀ c ∈ menuAvailableCourses g_allCourses g_user, c.id ∉ g_user.completed) := by
  have h := availableLoop_eq_filter g_user g_allCourses []
  simp only [List.nil_append] at h
  refine ⟨h, h, ?_, ?_⟩ <;>
  · intro c hc
    simp only [availableCourses, menuAvailableCourses, h, List.mem_filter,
      Bool.and_eq_true, decide_eq_true_eq] at hc
    exact hc.2.1

/-- Witness of C4: `cs102` is available to the default user and is not completed. -/
theorem availableCourses_eq_filter_witness :
    cs102 ∈ availableCourses builtinCourses defaultUser ∧
    cs102.id ∉ defaultUser.completed :=
  ⟨by decide, (availableCourses_eq_filter builtinCourses defaultUser).2.2.1 cs102 (by decide)⟩

/-! ## Ranking: the comparator, the sort contract, the shape of the result -/

theorem scoreGreater_eq_false_iff (g_user : UserProgress) (a b : List Course) :
    scoreGreater g_user a b = false ↔ calculatePlanScore g_user a ≤ calculatePlanScore g_user b := by
  simp [scoreGreater]

theorem scoreGreater_strictWeakOrdering (g_user : UserProgress) :
    StrictWeakOrdering (scoreGreater g_user) where
  irrefl := fun a => by simp [scoreGreater]
  trans := fun a b c hab hbc => by
    simp only [scoreGreater, decide_eq_true_eq, gt_iff_lt] at hab hbc ⊢
    exact lt_trans hbc hab
  incomp_trans := fun a b c h1 h2 h3 h4 => by
    simp only [scoreGreater_eq_false_iff] at h1 h2 h3 h4 ⊢
    exact ⟨le_trans h1 h3, le_trans h4 h2⟩

theorem StrictWeakOrdering.total {α : Type} {comp : α → α → Bool}
    (h : StrictWeakOrdering comp) (a b : α) : comp b a = false ∨ comp a b = false := by
  cases hba : comp b a
  · exact Or.inl rfl
  · cases hab : comp a b
    · exact Or.inr rfl
    · have := h.trans a b a hab hba
      rw [h.irrefl a] at this
      cases this

theorem StrictWeakOrdering.not_before_trans {α : Type} {comp : α → α → Bool}
    (h : StrictWeakOrdering comp) (a b c : α)
    (hba : comp b a = false) (hcb : comp c b = false) : comp c a = false := by
  cases hca : comp c a
  · rfl
  · cases hab : comp a b
    · cases hbc : comp b c
      · have := (h.incomp_trans a b c hab hba hbc hcb).2
        rw [hca] at this
        cases this
      · have := h.trans b c a hbc hca
        rw [hba] at this
        cases this
    · have := h.trans c a b hca hab
      rw [hcb] at this
      cases this

theorem insertionSort_meets_contract {comp : List Course → List Course → Bool}
    (h : StrictWeakOrdering comp) (l : List (List Course)) :
    (l.insertionSort (fun a b => comp b a = false)).Perm l ∧
    (l.insertionSort (fun a b => comp b a = false)).Pairwise (fun a b => comp b a = false) := by
  haveI : IsTotal (List Course) (fun a b => comp b a = false) := ⟨fun a b => h.total a b⟩
  haveI : IsTrans (List Course) (fun a b => comp b a = false) :=
    ⟨fun a b c hab hbc => h.not_before_trans a b c hab hbc⟩
  exact ⟨List.perm_insertionSort _ l, List.sorted_insertionSort _ l⟩

theorem insertionSortBy_contract : StdSortContract insertionSortBy :=
  fun _ l h => insertionSort_meets_contract h l

theorem reverseInsertionSortBy_contract : StdSortContract reverseInsertionSortBy :=
  fun _ l h =>
    ⟨(insertionSort_meets_contract h l.reverse).1.trans (List.reverse_perm l),
     (insertionSort_meets_contract h l.reverse).2⟩

theorem nil_mem_plansFrom (l : List Course) :
    ∀ cur : Int, cur ≤ MAX_CREDITS → [] ∈ plansFrom l cur := by
  induction l with
  | nil =>
    intro cur h
    have : ¬ cur > MAX_CREDITS := by omega
    simp [plansFrom, this]
  | cons c cs ih =>
    intro cur h
    have : ¬ cur > MAX_CREDITS := by omega
    simp only [plansFrom, this, if_false, List.mem_append]
    exact Or.inl (ih cur h)

theorem generateAllValidSchedules_ne_nil (available : List Course) :
    generateAllValidSchedules available ≠ [] := by
  rw [generateAllValidSchedules_eq_plansFrom]
  exact List.ne_nil_of_mem (nil_mem_plansFrom available 0 (by decide))

/-- The result of `getTopRecommendations` in closed form. -/
theorem getTopRecommendations_eq
    (sort : (List Course → List Course → Bool) → List (List Course) → List (List Course))
    (g_allCourses : List Course) (g_user : UserProgress) (topN : Int) :
    getTopRecommendations sort g_allCourses g_user topN
      = if availableCourses g_allCourses g_user = [] then []
        else (sort (scoreGreater g_user)
          (generateAllValidSchedules (availableCourses g_allCourses g_user))).take
            (toSizeT topN) := by
  unfold getTopRecommendations
  by_cases ha : availableCourses g_allCourses g_user = []
  · simp [ha]
  · have hg := generateAllValidSchedules_ne_nil (availableCourses g_allCourses g_user)
    simp only [List.isEmpty_iff, ha, hg, if_false]
    split
    · rfl
    · rw [List.take_of_length_le (by omega)]

theorem toSizeT_of_nonneg (topN : Int) (h0 : 0 ≤ topN) (h1 : topN < 2 ^ 64) :
    toSizeT topN = topN.toNat := by
  unfold toSizeT
  rw [Int.emod_eq_of_lt h0 h1]

/-- The range after `std::sort`: a rearrangement of the generated plans in which the
scores never increase. -/
theorem sorted_plans_spec
    {sort : (List Course → List Course → Bool) → List (List Course) → List (List Course)}
    (hsort : StdSortContract sort) (g_user : UserProgress) (plans : List (List Course)) :
    (sort (scoreGreater g_user) plans).Perm plans ∧
    (sort (scoreGreater g_user) plans).Pairwise
      (fun a b => calculatePlanScore g_user b ≤ calculatePlanScore g_user a) := by
  obtain ⟨hperm, hpw⟩ := hsort (scoreGreater g_user) plans (scoreGreater_strictWeakOrdering g_user)
  refine ⟨hperm, hpw.imp ?_⟩
  intro a b hab
  exact (scoreGreater_eq_false_iff g_user b a).mp hab

/-- The returned plans together with the plans cut off by the truncation are a
rearrangement of the generated plans, and no cut-off plan scores more than a returned
one. -/
theorem getTopRecommendations_split
    {sort : (List Course → List Course → Bool) → List (List Course) → List (List Course)}
    (hsort : StdSortContract sort) (g_allCourses : List Course) (g_user : UserProgress)
    (topN : Int) :
    ∃ rest : List (List Course),
      (getTopRecommendations sort g_allCourses g_user topN ++ rest).Perm
        (generateAllValidSchedules (availableCourses g_allCourses g_user)) ∧
      ∀ p ∈ rest, ∀ q ∈ getTopRecommendations sort g_allCourses g_user topN,
        calculatePlanScore g_user p ≤ calculatePlanScore g_user q := by
  rw [getTopRecommendations_eq]
  by_cases ha : availableCourses g_allCourses g_user = []
  · refine ⟨generateAllValidSchedules (availableCourses g_allCourses g_user), ?_, ?_⟩
    · simp [ha]
    · intro p _ q hq
      simp [ha] at hq
  · obtain ⟨hperm, hpw⟩ := sorted_plans_spec hsort g_user
      (generateAllValidSchedules (availableCourses g_allCourses g_user))
    simp only [ha, if_false]
    refine ⟨(sort (scoreGreater g_user)
      (generateAllValidSchedules (availableCourses g_allCourses g_user))).drop (toSizeT topN),
      ?_, ?_⟩
    · rw [List.take_append_drop]
      exact hperm
    · intro p hp q hq
      rw [← List.take_append_drop (toSizeT topN) (sort (scoreGreater g_user)
        (generateAllValidSchedules (availableCourses g_allCourses g_user)))] at hpw
      exact (List.pairwise_append.mp hpw).2.2 q hq p hp

/-! ## Claims about the ranking -/

/-- C5: for every catalog, profile and topN, the sequence returned by
`getTopRecommendations` is in non-increasing order of `calculatePlanScore`: no plan
scores less than a later one, and in particular each plan scores at least as much as
the plan right after it. -/
theorem getTopRecommendations_sorted
    (sort : (List Course → List Course → Bool) → List (List Course) → List (List Course))
    (hsort : StdSortContract sort) (g_allCourses : List Course) (g_user : UserProgress)
    (topN : Int) :
    (getTopRecommendations sort g_allCourses g_user topN).Pairwise
      (fun a b => calculatePlanScore g_user b ≤ calculatePlanScore g_user a) ∧
    ∀ (i : Nat) (h : i + 1 < (getTopRecommendations sort g_allCourses g_user topN).length),
      calculatePlanScore g_user ((getTopRecommendations sort g_allCourses g_user topN)[i + 1])
        ≤ calculatePlanScore g_user ((getTopRecommendations sort g_allCourses g_user topN)[i]) := by
  have hpw : (getTopRecommendations sort g_allCourses g_user topN).Pairwise
      (fun a b => calculatePlanScore g_user b ≤ calculatePlanScore g_user a) := by
    rw [getTopRecommendations_eq]
    split
    · exact List.Pairwise.nil
    · exact (sorted_plans_spec hsort g_user _).2.take
  refine ⟨hpw, fun i h => ?_⟩
  exact List.pairwise_iff_getElem.mp hpw i (i + 1) (by omega) h (by omega)

/-- Witness of C5: the built-in catalog and default user of the source, `topN = 3`,
with insertion sort as the sorting routine. -/
theorem getTopRecommendations_sorted_witness :
    StdSortContract insertionSortBy ∧
    (getTopRecommendations insertionSortBy builtinCourses defaultUser 3).Pairwise
      (fun a b => calculatePlanScore defaultUser b ≤ calculatePlanScore defaultUser a) :=
  ⟨insertionSortBy_contract,
   (getTopRecommendations_sorted insertionSortBy insertionSortBy_contract
      builtinCourses defaultUser 3).1⟩

/-- C6: `getTopRecommendations` selects the top-N of the generated plans: the returned
plans are a sub-multiset of `generateAllValidSchedules(available)`; they and the
plans left out make up the generated plans, no plan left out scoring more than a
returned one; so every generated plan that is not returned scores no more than every
returned plan. -/
theorem getTopRecommendations_selects_top
    (sort : (List Course → List Course → Bool) → List (List Course) → List (List Course))
    (hsort : StdSortContract sort) (g_allCourses : List Course) (g_user : UserProgress)
    (topN : Int) :
    (getTopRecommendations sort g_allCourses g_user topN).Subperm
      (generateAllValidSchedules (availableCourses g_allCourses g_user)) ∧
    (∃ rest : List (List Course),
      (getTopRecommendations sort g_allCourses g_user topN ++ rest).Perm
        (generateAllValidSchedules (availableCourses g_allCourses g_user)) ∧
      ∀ p ∈ rest, ∀ q ∈ getTopRecommendations sort g_allCourses g_user topN,
        calculatePlanScore g_user p ≤ calculatePlanScore g_user q) ∧
    (∀ p ∈ generateAllValidSchedules (availableCourses g_allCourses g_user),
      p ∉ getTopRecommendations sort g_allCourses g_user topN →
      ∀ q ∈ getTopRecommendations sort g_allCourses g_user topN,
        calculatePlanScore g_user p ≤ calculatePlanScore g_user q) := by
  obtain ⟨rest, hperm, hle⟩ := getTopRecommendations_split hsort g_allCourses g_user topN
  refine ⟨?_, ⟨rest, hperm, hle⟩, ?_⟩
  · exact (List.sublist_append_left _ rest).subperm.trans hperm.subperm
  · intro p hp hnot q hq
    have hmem : p ∈ getTopRecommendations sort g_allCourses g_user topN ++ rest :=
      hperm.symm.subset hp
    rcases List.mem_append.mp hmem with h | h
    · exact absurd h hnot
    · exact hle p h q hq

/-- Witness of C6: the built-in catalog and default user of the source, `topN = 3`,
with insertion sort as the sorting routine. -/
theorem getTopRecommendations_selects_top_witness :
    StdSortContract insertionSortBy ∧
    (getTopRecommendations insertionSortBy builtinCourses defaultUser 3).Subperm
      (generateAllValidSchedules (availableCourses builtinCourses defaultUser)) :=
  ⟨insertionSortBy_contract,
   (getTopRecommendations_selects_top insertionSortBy insertionSortBy_contract
      builtinCourses defaultUser 3).1⟩

/-- C7, counterexample: when every course of the catalog is completed the available
list is empty and `getTopRecommendations(3)` returns no plan, while the enumerator
produces one plan (the empty one) for the empty list, so that min(3, 1) = 1. -/
theorem getTopRecommendations_length_counterexample :
    availableCourses [cs101, math201] defaultUser = [] ∧
    (getTopRecommendations insertionSortBy [cs101, math201] defaultUser 3).length = 0 ∧
    (generateAllValidSchedules (availableCourses [cs101, math201] defaultUser)).length = 1 ∧
    ((getTopRecommendations insertionSortBy [cs101, math201] defaultUser 3).length : Int)
      ≠ min 3 ((generateAllValidSchedules
          (availableCourses [cs101, math201] defaultUser)).length : Int) := by
  have ha : availableCourses [cs101, math201] defaultUser = [] := by decide
  have hg : generateAllValidSchedules [] = [[]] := by
    rw [generateAllValidSchedules_eq_plansFrom]; decide
  refine ⟨ha, ?_, ?_, ?_⟩
  · rw [getTopRecommendations_eq, ha]; rfl
  · rw [ha, hg]; rfl
  · rw [getTopRecommendations_eq, ha, hg]; decide

/-- C7, amended: when the available list is not empty and `0 ≤ topN` (an `int`, so
below `2 ^ 64`), the length of the result is min(topN, number of generated plans);
when the available list is empty the result is empty. -/
theorem getTopRecommendations_length
    (sort : (List Course → List Course → Bool) → List (List Course) → List (List Course))
    (hsort : StdSortContract sort) (g_allCourses : List Course) (g_user : UserProgress)
    (topN : Int) (h0 : 0 ≤ topN) (h1 : topN < 2 ^ 64) :
    (availableCourses g_allCourses g_user ≠ [] →
      ((getTopRecommendations sort g_allCourses g_user topN).length : Int)
        = min topN ((generateAllValidSchedules
            (availableCourses g_allCourses g_user)).length : Int)) ∧
    (availableCourses g_allCourses g_user = [] →
      (getTopRecommendations sort g_allCourses g_user topN).length = 0) := by
  rw [getTopRecommendations_eq]
  constructor
  · intro ha
    have hlen := (sorted_plans_spec hsort g_user
      (generateAllValidSchedules (availableCourses g_allCourses g_user))).1.length_eq
    simp only [ha, if_false, List.length_take, toSizeT_of_nonneg topN h0 h1, hlen]
    omega
  · intro ha
    simp [ha]

/-- Witness of C7 (amended): built-in catalog, default user, `topN = 3`. -/
theorem getTopRecommendations_length_witness :
    StdSortContract insertionSortBy ∧ (0 : Int) ≤ 3 ∧ (3 : Int) < 2 ^ 64 ∧
    availableCourses builtinCourses defaultUser ≠ [] ∧
    ((getTopRecommendations insertionSortBy builtinCourses defaultUser 3).length : Int)
      = min 3 ((generateAllValidSchedules
          (availableCourses builtinCourses defaultUser)).length : Int) :=
  ⟨insertionSortBy_contract, by decide, by decide, by decide,
   (getTopRecommendations_length insertionSortBy insertionSortBy_contract
      builtinCourses defaultUser 3 (by decide) (by decide)).1 (by decide)⟩

/-! ### Evaluation on the built-in data -/

theorem defaultPlans :
    generateAllValidSchedules (availableCourses builtinCourses defaultUser)
      = [[], [math202], [cs103], [cs103, math202], [cs102], [cs102, math202],
         [cs102, cs103], [cs102, cs103, math202]] := by
  rw [generateAllValidSchedules_eq_plansFrom]
  decide

theorem defaultScores :
    calculatePlanScore defaultUser [] = 0 ∧
    calculatePlanScore defaultUser [math202] = 9 / 220 ∧
    calculatePlanScore defaultUser [cs103] = 9 / 220 ∧
    calculatePlanScore defaultUser [cs103, math202] = 9 / 110 ∧
    calculatePlanScore defaultUser [cs102] = 43 / 110 ∧
    calculatePlanScore defaultUser [cs102, math202] = 113 / 440 ∧
    calculatePlanScore defaultUser [cs102, cs103] = 113 / 440 ∧
    calculatePlanScore defaultUser [cs102, cs103, math202] = 79 / 330 := by
  refine ⟨?_, ?_, ?_, ?_, ?_, ?_, ?_, ?_⟩ <;>
  · simp [calculatePlanScore, planTotals, calculateInterestScore, countMatches,
      tagMatchesInterest, defaultUser, cs102, cs103, math202, MAX_CREDITS]
    try norm_num

theorem defaultTop_reverseInsertionSortBy :
    getTopRecommendations reverseInsertionSortBy builtinCourses defaultUser 3
      = [[cs102], [cs102, cs103], [cs102, math202]] := by
  obtain ⟨h0, h1, h2, h3, h4, h5, h6, h7⟩ := defaultScores
  have ha : availableCourses builtinCourses defaultUser ≠ [] := by decide
  rw [getTopRecommendations_eq, if_neg ha, defaultPlans]
  norm_num [reverseInsertionSortBy, List.insertionSort, List.orderedInsert, scoreGreater,
    h0, h1, h2, h3, h4, h5, h6, h7, toSizeT]
  rfl

theorem defaultTop_insertionSortBy :
    getTopRecommendations insertionSortBy builtinCourses defaultUser 3
      = [[cs102], [cs102, math202], [cs102, cs103]] := by
  obtain ⟨h0, h1, h2, h3, h4, h5, h6, h7⟩ := defaultScores
  have ha : availableCourses builtinCourses defaultUser ≠ [] := by decide
  rw [getTopRecommendations_eq, if_neg ha, defaultPlans]
  norm_num [insertionSortBy, List.insertionSort, List.orderedInsert, scoreGreater,
    h0, h1, h2, h3, h4, h5, h6, h7, toSizeT]
  rfl

/-- C8, counterexample: on the built-in catalog and default user of the source, with
`topN = 3`, a sorting routine that meets the contract of `std::sort` returns the two
equal-score plans `[cs102, cs103]` and `[cs102, math202]` in the reverse of the order
in which `generateAllValidSchedules` produced them; a stable routine returns them in
enumeration order, and the two results differ. -/
theorem getTopRecommendations_ties_counterexample :
    StdSortContract reverseInsertionSortBy ∧
    generateAllValidSchedules (availableCourses builtinCourses defaultUser)
      = [[], [math202], [cs103], [cs103, math202], [cs102], [cs102, math202],
         [cs102, cs103], [cs102, cs103, math202]] ∧
    calculatePlanScore defaultUser [cs102, math202]
      = calculatePlanScore defaultUser [cs102, cs103] ∧
    getTopRecommendations reverseInsertionSortBy builtinCourses defaultUser 3
      = [[cs102], [cs102, cs103], [cs102, math202]] ∧
    getTopRecommendations insertionSortBy builtinCourses defaultUser 3
      = [[cs102], [cs102, math202], [cs102, cs103]] ∧
    getTopRecommendations reverseInsertionSortBy builtinCourses defaultUser 3
      ≠ getTopRecommendations insertionSortBy builtinCourses defaultUser 3 := by
  refine ⟨reverseInsertionSortBy_contract, defaultPlans, ?_,
    defaultTop_reverseInsertionSortBy, defaultTop_insertionSortBy, ?_⟩
  · rw [defaultScores.2.2.2.2.2.1, defaultScores.2.2.2.2.2.2.1]
  · rw [defaultTop_reverseInsertionSortBy, defaultTop_insertionSortBy]
    decide

/-- C8, amended: when the available list is not empty and `0 ≤ topN` (an `int`, so
below `2 ^ 64`), the result is the first `topN` plans of a rearrangement of the
generated plans in which the scores never increase; nothing is said about the order
of plans with equal score. -/
theorem getTopRecommendations_sorted_prefix
    (sort : (List Course → List Course → Bool) → List (List Course) → List (List Course))
    (hsort : StdSortContract sort) (g_allCourses : List Course) (g_user : UserProgress)
    (topN : Int) (h0 : 0 ≤ topN) (h1 : topN < 2 ^ 64)
    (ha : availableCourses g_allCourses g_user ≠ []) :
    ∃ sorted : List (List Course),
      sorted.Perm (generateAllValidSchedules (availableCourses g_allCourses g_user)) ∧
      sorted.Pairwise
        (fun a b => calculatePlanScore g_user b ≤ calculatePlanScore g_user a) ∧
      getTopRecommendations sort g_allCourses g_user topN = sorted.take topN.toNat := by
  obtain ⟨hperm, hpw⟩ := sorted_plans_spec hsort g_user
    (generateAllValidSchedules (availableCourses g_allCourses g_user))
  refine ⟨_, hperm, hpw, ?_⟩
  rw [getTopRecommendations_eq, if_neg ha, toSizeT_of_nonneg topN h0 h1]

/-- Witness of C8 (amended): built-in catalog, default user, `topN = 3`, with the
routine that reverses ties. -/
theorem getTopRecommendations_sorted_prefix_witness :
    StdSortContract reverseInsertionSortBy ∧ (0 : Int) ≤ 3 ∧ (3 : Int) < 2 ^ 64 ∧
    availableCourses builtinCourses defaultUser ≠ [] ∧
    ∃ sorted : List (List Course),
      sorted.Perm (generateAllValidSchedules (availableCourses builtinCourses defaultUser)) ∧
      sorted.Pairwise
        (fun a b => calculatePlanScore defaultUser b ≤ calculatePlanScore defaultUser a) ∧
      getTopRecommendations reverseInsertionSortBy builtinCourses defaultUser 3
        = sorted.take (3 : Int).toNat :=
  ⟨reverseInsertionSortBy_contract, by decide, by decide, by decide,
   getTopRecommendations_sorted_prefix reverseInsertionSortBy reverseInsertionSortBy_contract
     builtinCourses defaultUser 3 (by decide) (by decide) (by decide)⟩

/-! ## Claims about the interest score -/

theorem tagMatchesInterest_iff (tag : String) (interests : List String) :
    tagMatchesInterest tag interests = true ↔ tag ∈ interests := by
  induction interests with
  | nil => simp [tagMatchesInterest]
  | cons i rest ih =>
    by_cases h : tag = i
    · simp [tagMatchesInterest, h]
    · simp [tagMatchesInterest, h, ih]

theorem countMatches_eq (interests : List String) (tags : List String) :
    ∀ matchCount : Nat,
      countMatches interests tags matchCount
        = matchCount + tags.countP (fun tag => decide (tag ∈ interests)) := by
  induction tags with
  | nil => intro n; simp [countMatches]
  | cons t rest ih =>
    intro n
    by_cases h : t ∈ interests
    · have h2 : tagMatchesInterest t interests = true := (tagMatchesInterest_iff t interests).mpr h
      simp only [countMatches, h2, if_true, ih, List.countP_cons, h, decide_True]
      omega
    · have h2 : ¬ tagMatchesInterest t interests = true :=
        fun hh => h ((tagMatchesInterest_iff t interests).mp hh)
      simp only [countMatches, h2, if_false, ih, List.countP_cons, h, decide_False]
      simp

theorem countP_mem_le_length_of_nodup (interests tags : List String) (hnd : tags.Nodup) :
    tags.countP (fun tag => decide (tag ∈ interests)) ≤ interests.length := by
  rw [List.countP_eq_length_filter]
  have hsub : tags.filter (fun tag => decide (tag ∈ interests)) ⊆ interests := by
    intro x hx
    simpa using (List.mem_filter.mp hx).2
  exact (List.subperm_of_subset (hnd.filter _) hsub).length_le

theorem calculateInterestScore_of_interests (g_user : UserProgress) (course : Course)
    (h : g_user.interests ≠ []) :
    calculateInterestScore g_user course
      = ((course.tags.countP (fun tag => decide (tag ∈ g_user.interests)) : Nat) : ℚ)
          / (g_user.interests.length : ℚ) := by
  simp only [calculateInterestScore, List.isEmpty_iff, h, if_false, countMatches_eq,
    Nat.zero_add]

/-- C9: `calculateInterestScore` is 0 when the profile has no interests, and otherwise
is the number of entries of `course.tags` that are equal to at least one entry of
`interests` (each tag entry counted once), divided by the length of `interests`
(duplicates counted). -/
theorem calculateInterestScore_eq (g_user : UserProgress) (course : Course) :
    (g_user.interests = [] → calculateInterestScore g_user course = 0) ∧
    (g_user.interests ≠ [] →
      calculateInterestScore g_user course
        = ((course.tags.countP (fun tag => decide (tag ∈ g_user.interests)) : Nat) : ℚ)
            / (g_user.interests.length : ℚ)) := by
  constructor
  · intro h
    simp [calculateInterestScore, h]
  · exact calculateInterestScore_of_interests g_user course

/-- Witness of C9: the default user has two interests, and both tags of `cs202`
are among them. -/
theorem calculateInterestScore_eq_witness :
    defaultUser.interests ≠ [] ∧
    calculateInterestScore defaultUser cs202
      = ((cs202.tags.countP (fun tag => decide (tag ∈ defaultUser.interests)) : Nat) : ℚ)
          / (defaultUser.interests.length : ℚ) :=
  ⟨by decide, (calculateInterestScore_eq defaultUser cs202).2 (by decide)⟩

/-- C10, counterexample: a course whose tag list repeats `AI`, for a user whose only
interest is `AI`, has interest score 2, outside [0, 1]. -/
theorem calculateInterestScore_range_counterexample :
    calculateInterestScore aiUser repeatedTagCourse = 2 ∧
    ¬ (calculateInterestScore aiUser repeatedTagCourse ≤ 1) := by
  have h : calculateInterestScore aiUser repeatedTagCourse = 2 := by
    simp [calculateInterestScore, countMatches, tagMatchesInterest, aiUser, repeatedTagCourse]
  rw [h]
  exact ⟨rfl, by norm_num⟩

/-- C10, amended: `calculateInterestScore` is never negative, and it is at most 1
whenever `course.tags` has no repeated entry. -/
theorem calculateInterestScore_range (g_user : UserProgress) (course : Course) :
    0 ≤ calculateInterestScore g_user course ∧
    (course.tags.Nodup → calculateInterestScore g_user course ≤ 1) := by
  by_cases h : g_user.interests = []
  · simp [calculateInterestScore, h]
  · have hlen : (0 : ℚ) < (g_user.interests.length : ℚ) := by
      exact_mod_cast List.length_pos.mpr h
    rw [calculateInterestScore_of_interests g_user course h]
    refine ⟨div_nonneg (Nat.cast_nonneg _) hlen.le, fun hnd => ?_⟩
    rw [div_le_one hlen]
    exact_mod_cast countP_mem_le_length_of_nodup g_user.interests course.tags hnd

/-- Witness of C10 (amended): the tags of `cs202` are distinct. -/
theorem calculateInterestScore_range_witness :
    cs202.tags.Nodup ∧ calculateInterestScore defaultUser cs202 ≤ 1 :=
  ⟨by decide, (calculateInterestScore_range defaultUser cs202).2 (by decide)⟩

/-! ## Claims about the plan score -/

theorem planTotals_eq (g_user : UserProgress) (plan : List Course) :
    ∀ acc : ℚ × Int,
      planTotals g_user plan acc
        = (acc.1 + (plan.map (calculateInterestScore g_user)).sum, acc.2 + planCredits plan) := by
  induction plan with
  | nil => intro acc; simp [planTotals, planCredits]
  | cons c rest ih =>
    intro acc
    simp only [planTotals, ih, planCredits, List.map_cons, List.sum_cons]
    ext
    · simp only; ring
    · simp only; ring

theorem calculatePlanScore_of_ne_nil (g_user : UserProgress) (plan : List Course)
    (h : plan ≠ []) :
    calculatePlanScore g_user plan
      = 7 / 10 * ((plan.map (calculateInterestScore g_user)).sum / (plan.length : ℚ))
        + 3 / 10 * (((plan.map Course.credits).sum : ℚ) / 22) := by
  simp only [calculatePlanScore, List.isEmpty_iff, h, if_false, planTotals_eq, planCredits,
    MAX_CREDITS]
  push_cast
  ring

theorem planScore_weighted_terms (g_user : UserProgress) (plan : List Course) :
    calculatePlanScore g_user plan
      = 7 / 10 * meanInterest g_user plan + 3 / 10 * ((planCredits plan : ℚ) / 22) := by
  by_cases h : plan = []
  · subst h
    simp [calculatePlanScore, meanInterest, planCredits]
  · rw [calculatePlanScore_of_ne_nil g_user plan h]
    simp only [meanInterest, h, if_false, planCredits]

theorem calculateInterestScore_of_no_interests (g_user : UserProgress) (course : Course)
    (h : g_user.interests = []) : calculateInterestScore g_user course = 0 := by
  simp [calculateInterestScore, h]

/-- C11: `calculatePlanScore` is 0 for the empty plan, and for a non-empty plan it is
0.7 times the arithmetic mean of `calculateInterestScore` over the courses of the plan
plus 0.3 times (the sum of the credits of the plan divided by 22). -/
theorem calculatePlanScore_eq (g_user : UserProgress) (plan : List Course) :
    calculatePlanScore g_user [] = 0 ∧
    (plan ≠ [] →
      calculatePlanScore g_user plan
        = 7 / 10 * ((plan.map (calculateInterestScore g_user)).sum / (plan.length : ℚ))
          + 3 / 10 * (((plan.map Course.credits).sum : ℚ) / 22)) := by
  refine ⟨?_, calculatePlanScore_of_ne_nil g_user plan⟩
  simp [calculatePlanScore]

/-- Witness of C11: the plan `[cs102, math202]` of the default user. -/
theorem calculatePlanScore_eq_witness :
    [cs102, math202] ≠ [] ∧
    calculatePlanScore defaultUser [cs102, math202]
      = 7 / 10 * (([cs102, math202].map (calculateInterestScore defaultUser)).sum
            / (([cs102, math202] : List Course).length : ℚ))
        + 3 / 10 * (((([cs102, math202].map Course.credits).sum : Int) : ℚ) / 22) :=
  ⟨by decide, (calculatePlanScore_eq defaultUser [cs102, math202]).2 (by decide)⟩

/-- C14: for a profile whose interests list is empty, `calculateInterestScore` is 0 for
every course, and `calculatePlanScore` of every plan is 0.3 times (the sum of the
credits of the plan divided by 22). -/
theorem scores_of_no_interests (g_user : UserProgress) (h : g_user.interests = []) :
    (∀ c : Course, calculateInterestScore g_user c = 0) ∧
    (∀ plan : List Course,
      calculatePlanScore g_user plan
        = 3 / 10 * (((plan.map Course.credits).sum : ℚ) / 22)) := by
  refine ⟨fun c => calculateInterestScore_of_no_interests g_user c h, fun plan => ?_⟩
  have hmean : meanInterest g_user plan = 0 := by
    unfold meanInterest
    split
    · rfl
    · have hz : (plan.map (calculateInterestScore g_user)).sum = 0 := by
        apply List.sum_eq_zero
        intro x hx
        obtain ⟨c, _, rfl⟩ := List.mem_map.mp hx
        exact calculateInterestScore_of_no_interests g_user c h
      rw [hz, zero_div]
  rw [planScore_weighted_terms, hmean, planCredits]
  ring

/-- Witness of C14: a user without interests and the plan `[cs102, math202]`. -/
theorem scores_of_no_interests_witness :
    (⟨"U5000", ∅, [], 1⟩ : UserProgress).interests = [] ∧
    calculatePlanScore ⟨"U5000", ∅, [], 1⟩ [cs102, math202]
      = 3 / 10 * (((([cs102, math202].map Course.credits).sum : Int) : ℚ) / 22) :=
  ⟨rfl, (scores_of_no_interests ⟨"U5000", ∅, [], 1⟩ rfl).2 [cs102, math202]⟩

/-- C15: `calculatePlanScore` is monotone in each of its two terms.  For two plans with
equal total credits, a smaller-or-equal mean interest gives a smaller-or-equal score;
for two plans with equal mean interest, smaller-or-equal total credits give a
smaller-or-equal score (the empty plan has mean interest 0 and 0 credits). -/
theorem calculatePlanScore_monotone (g_user : UserProgress) (a b : List Course) :
    (planCredits a = planCredits b → meanInterest g_user a ≤ meanInterest g_user b →
      calculatePlanScore g_user a ≤ calculatePlanScore g_user b) ∧
    (meanInterest g_user a = meanInterest g_user b → planCredits a ≤ planCredits b →
      calculatePlanScore g_user a ≤ calculatePlanScore g_user b) := by
  rw [planScore_weighted_terms g_user a, planScore_weighted_terms g_user b]
  constructor
  · intro hc hm
    rw [hc]
    linarith
  · intro hm hc
    rw [hm]
    have : (planCredits a : ℚ) ≤ (planCredits b : ℚ) := by exact_mod_cast hc
    linarith

theorem meanInterest_cs103_le_cs102 :
    meanInterest defaultUser [cs103] ≤ meanInterest defaultUser [cs102] := by
  simp [meanInterest, calculateInterestScore, countMatches, tagMatchesInterest, defaultUser,
    cs102, cs103]

/-- Witness of C15: `[cs103]` and `[cs102]` have 3 credits each and mean interest
0 and 1/2 for the default user. -/
theorem calculatePlanScore_monotone_witness :
    planCredits [cs103] = planCredits [cs102] ∧
    meanInterest defaultUser [cs103] ≤ meanInterest defaultUser [cs102] ∧
    calculatePlanScore defaultUser [cs103] ≤ calculatePlanScore defaultUser [cs102] :=
  ⟨by decide, meanInterest_cs103_le_cs102,
   (calculatePlanScore_monotone defaultUser [cs103] [cs102]).1 (by decide)
     meanInterest_cs103_le_cs102⟩

/-! ## Claims about dangling prerequisites and the empty result -/

theorem mem_availableCourses_iff (g_allCourses : List Course) (g_user : UserProgress)
    (c : Course) :
    c ∈ availableCourses g_allCourses g_user ↔
      c ∈ g_allCourses ∧ c.id ∉ g_user.completed ∧ hasAllPrerequisites g_user c = true := by
  have h := availableLoop_eq_filter g_user g_allCourses []
  simp only [List.nil_append] at h
  simp only [availableCourses, h, List.mem_filter, Bool.and_eq_true, decide_eq_true_eq]

theorem getTopRecommendations_mem_generated
    {sort : (List Course → List Course → Bool) → List (List Course) → List (List Course)}
    (hsort : StdSortContract sort) (g_allCourses : List Course) (g_user : UserProgress)
    (topN : Int) (p : List Course)
    (hp : p ∈ getTopRecommendations sort g_allCourses g_user topN) :
    p ∈ generateAllValidSchedules (availableCourses g_allCourses g_user) := by
  obtain ⟨rest, hperm, _⟩ := getTopRecommendations_split hsort g_allCourses g_user topN
  exact hperm.subset (List.mem_append_left rest hp)

theorem getTopRecommendations_perm_of_length_le
    {sort : (List Course → List Course → Bool) → List (List Course) → List (List Course)}
    (hsort : StdSortContract sort) (g_allCourses : List Course) (g_user : UserProgress)
    (topN : Int) (ha : availableCourses g_allCourses g_user ≠ [])
    (hlen : (generateAllValidSchedules (availableCourses g_allCourses g_user)).length
      ≤ toSizeT topN) :
    (getTopRecommendations sort g_allCourses g_user topN).Perm
      (generateAllValidSchedules (availableCourses g_allCourses g_user)) := by
  obtain ⟨hperm, _⟩ := sorted_plans_spec hsort g_user
    (generateAllValidSchedules (availableCourses g_allCourses g_user))
  rw [getTopRecommendations_eq, if_neg ha, List.take_of_length_le (by rw [hperm.length_eq]; exact hlen)]
  exact hperm

/-- C12, counterexample: the only course of the catalog lists the prerequisite
`CS999`, which is the id of no catalog course, but the completed set of the user
names `CS999`: `hasAllPrerequisites` is true, the course is available, and it is in
a plan returned by `getTopRecommendations(3)`. -/
theorem dangling_prerequisite_counterexample :
    "CS999" ∈ danglingCourse.prereqs ∧
    (∀ d ∈ [danglingCourse], d.id ≠ "CS999") ∧
    hasAllPrerequisites danglingUser danglingCourse = true ∧
    danglingCourse ∈ availableCourses [danglingCourse] danglingUser ∧
    (∃ p ∈ getTopRecommendations insertionSortBy [danglingCourse] danglingUser 3,
      danglingCourse ∈ p) := by
  refine ⟨by decide, by decide, by decide, by decide, [danglingCourse], ?_, by decide⟩
  have ha : availableCourses [danglingCourse] danglingUser ≠ [] := by decide
  have hperm := getTopRecommendations_perm_of_length_le insertionSortBy_contract
    [danglingCourse] danglingUser 3 ha
    (by rw [generateAllValidSchedules_eq_plansFrom]; decide)
  refine hperm.symm.subset ?_
  rw [generateAllValidSchedules_eq_plansFrom]
  decide

/-- C12, amended: when every completed id of the profile is the id of a catalog
course, a course that lists a prerequisite id absent from the catalog has
`hasAllPrerequisites` false, is not in the available list, and is in no plan returned
by `getTopRecommendations`. -/
theorem dangling_prerequisite_unsatisfied
    (sort : (List Course → List Course → Bool) → List (List Course) → List (List Course))
    (hsort : StdSortContract sort) (g_allCourses : List Course) (g_user : UserProgress)
    (topN : Int) (course : Course) (pre : String)
    (hpre : pre ∈ course.prereqs)
    (habsent : ∀ d ∈ g_allCourses, d.id ≠ pre)
    (hcompleted : ∀ id ∈ g_user.completed, ∃ d ∈ g_allCourses, d.id = id) :
    hasAllPrerequisites g_user course = false ∧
    course ∉ availableCourses g_allCourses g_user ∧
    (∀ p ∈ getTopRecommendations sort g_allCourses g_user topN, course ∉ p) := by
  have hnot : pre ∉ g_user.completed := by
    intro hin
    obtain ⟨d, hd, hid⟩ := hcompleted pre hin
    exact habsent d hd hid
  have hfalse : hasAllPrerequisites g_user course = false := by
    cases hv : hasAllPrerequisites g_user course
    · rfl
    · exact absurd ((hasAllPrerequisitesLoop_iff _ _).mp hv pre hpre) hnot
  have havail : course ∉ availableCourses g_allCourses g_user := by
    intro hin
    have := ((mem_availableCourses_iff g_allCourses g_user course).mp hin).2.2
    rw [hfalse] at this
    cases this
  refine ⟨hfalse, havail, fun p hp hin => havail ?_⟩
  have hgen := getTopRecommendations_mem_generated hsort g_allCourses g_user topN p hp
  rw [generateAllValidSchedules_eq_plansFrom] at hgen
  exact (plansFrom_sublist _ 0 p hgen).subset hin

/-- Witness of C12 (amended): the built-in catalog extended by a course whose
prerequisite `CS999` is not in it, for the default user. -/
theorem dangling_prerequisite_unsatisfied_witness :
    StdSortContract insertionSortBy ∧
    "CS999" ∈ danglingCourse.prereqs ∧
    (∀ d ∈ builtinCourses ++ [danglingCourse], d.id ≠ "CS999") ∧
    (∀ id ∈ defaultUser.completed, ∃ d ∈ builtinCourses ++ [danglingCourse], d.id = id) ∧
    hasAllPrerequisites defaultUser danglingCourse = false ∧
    danglingCourse ∉ availableCourses (builtinCourses ++ [danglingCourse]) defaultUser :=
  ⟨insertionSortBy_contract, by decide, by decide, by decide,
   (dangling_prerequisite_unsatisfied insertionSortBy insertionSortBy_contract
      (builtinCourses ++ [danglingCourse]) defaultUser 3 danglingCourse "CS999"
      (by decide) (by decide) (by decide)).1,
   (dangling_prerequisite_unsatisfied insertionSortBy insertionSortBy_contract
      (builtinCourses ++ [danglingCourse]) defaultUser 3 danglingCourse "CS999"
      (by decide) (by decide) (by decide)).2.1⟩

/-- C13: when the available list has no entry, and in particular for the empty
catalog, `getTopRecommendations` returns the empty sequence, for every topN and
whatever the sorting routine (it is not reached). -/
theorem getTopRecommendations_of_no_available
    (sort : (List Course → List Course → Bool) → List (List Course) → List (List Course))
    (g_allCourses : List Course) (g_user : UserProgress) (topN : Int) :
    (availableCourses g_allCourses g_user = [] →
      getTopRecommendations sort g_allCourses g_user topN = []) ∧
    getTopRecommendations sort [] g_user topN = [] := by
  constructor
  · intro h
    simp [getTopRecommendations, h]
  · simp [getTopRecommendations, availableCourses, availableLoop]

/-- Witness of C13: the default user has completed both courses of the catalog. -/
theorem getTopRecommendations_of_no_available_witness :
    availableCourses [cs101, math201] defaultUser = [] ∧
    getTopRecommendations insertionSortBy [cs101, math201] defaultUser 3 = [] :=
  ⟨by decide,
   (getTopRecommendations_of_no_available insertionSortBy [cs101, math201] defaultUser 3).1
     (by decide)⟩

/-! ## Claims about the enumeration: empty plan, frame of `backtrack` -/

/-- C17: the output of `generateAllValidSchedules` contains the empty plan for every
available list, and for the empty available list it is exactly the one empty plan. -/
theorem generateAllValidSchedules_nil_mem (available : List Course) :
    [] ∈ generateAllValidSchedules available ∧
    generateAllValidSchedules [] = [[]] := by
  constructor
  · rw [generateAllValidSchedules_eq_plansFrom]
    exact nil_mem_plansFrom available 0 (by decide)
  · rw [generateAllValidSchedules_eq_plansFrom]
    decide

/-- C20: a call of `backtrack` with `index` in `[0, n]` leaves `currentPlan` as it was
at entry and changes `allPlans` only by appending: the plans present at entry stay
as a prefix, and every appended plan has the entry value of `currentPlan` as a
prefix. -/
theorem backtrack_frame (index : Nat) (candidates : List Course) (currentCredits : Int)
    (currentPlan : List Course) (allPlans : List (List Course))
    (h : index ≤ candidates.length) :
    (backtrack index candidates currentCredits currentPlan allPlans).1 = currentPlan ∧
    ∃ added : List (List Course),
      (backtrack index candidates currentCredits currentPlan allPlans).2 = allPlans ++ added ∧
      ∀ p ∈ added, currentPlan <+: p := by
  rw [backtrack_eq_plansFrom (candidates.drop index) index candidates currentCredits
    currentPlan allPlans rfl h]
  refine ⟨rfl, _, rfl, ?_⟩
  intro p hp
  obtain ⟨q, _, rfl⟩ := List.mem_map.mp hp
  exact ⟨q, rfl⟩

/-- Witness of C20: a call at index 1 of three candidates with a current plan and a
stored plan. -/
theorem backtrack_frame_witness :
    1 ≤ [cs102, cs103, math202].length ∧
    (backtrack 1 [cs102, cs103, math202] 3 [cs102] [[]]).1 = [cs102] ∧
    ∃ added : List (List Course),
      (backtrack 1 [cs102, cs103, math202] 3 [cs102] [[]]).2 = [[]] ++ added ∧
      ∀ p ∈ added, [cs102] <+: p :=
  ⟨by decide, backtrack_frame 1 [cs102, cs103, math202] 3 [cs102] [[]] (by decide)⟩

/-! ## Pruning against the unpruned enumeration -/

theorem unprunedPlans_eq_sublists (l : List Course) : unprunedPlans l = l.sublists' := by
  induction l with
  | nil => rfl
  | cons c cs ih => simp [unprunedPlans, ih, List.sublists'_cons]

theorem plansFrom_of_gt (l : List Course) (cur : Int) (h : cur > MAX_CREDITS) :
    plansFrom l cur = [] := by
  cases l <;> simp [plansFrom, h]

theorem plansFrom_eq_filter (l : List Course) :
    ∀ cur : Int, (∀ c ∈ l, c.credits > 0) →
      plansFrom l cur
        = (unprunedPlans l).filter (fun p => decide (cur + planCredits p ≤ MAX_CREDITS)) := by
  induction l with
  | nil =>
    intro cur _
    by_cases hc : cur > MAX_CREDITS
    · have : ¬ cur ≤ MAX_CREDITS := by omega
      simp [plansFrom, unprunedPlans, planCredits, hc, this]
    · have : cur ≤ MAX_CREDITS := by omega
      simp [plansFrom, unprunedPlans, planCredits, hc, this]
  | cons c cs ih =>
    intro cur hpos
    have hcs : ∀ d ∈ cs, d.credits > 0 := fun d hd => hpos d (List.mem_cons_of_mem _ hd)
    have hcpos := hpos c (List.mem_cons_self _ _)
    have htake : (if cur + c.credits ≤ MAX_CREDITS
          then (plansFrom cs (cur + c.credits)).map (c :: ·) else [])
        = (plansFrom cs (cur + c.credits)).map (c :: ·) := by
      split
      · rfl
      · rw [plansFrom_of_gt cs _ (by omega)]
        rfl
    have hmap : ((unprunedPlans cs).map (c :: ·)).filter
          (fun p => decide (cur + planCredits p ≤ MAX_CREDITS))
        = ((unprunedPlans cs).filter
          (fun p => decide (cur + c.credits + planCredits p ≤ MAX_CREDITS))).map (c :: ·) := by
      rw [List.filter_map]
      congr 1
      apply List.filter_congr
      intro p _
      simp only [Function.comp_apply, planCredits, List.map_cons, List.sum_cons, add_assoc]
    by_cases hc : cur > MAX_CREDITS
    · rw [plansFrom_of_gt _ _ hc]
      symm
      rw [List.filter_eq_nil_iff]
      intro p hp
      have hsub : p.Sublist (c :: cs) := by
        rw [unprunedPlans_eq_sublists] at hp
        exact List.mem_sublists'.mp hp
      have := planCredits_nonneg p (fun d hd => hpos d (hsub.subset hd))
      simp only [decide_eq_true_eq]
      omega
    · have hstep : plansFrom (c :: cs) cur
          = plansFrom cs cur ++ (plansFrom cs (cur + c.credits)).map (c :: ·) := by
        simp only [plansFrom, hc, if_false]
        rw [htake]
      rw [hstep, ih cur hcs, ih (cur + c.credits) hcs]
      simp only [unprunedPlans, List.filter_append, hmap]

/-- C18: pruning does not change the result.  When every available course has
credits > 0, `generateAllValidSchedules` equals, as a list in the same order, the
unpruned skip-then-take enumeration filtered to the plans whose credits sum to at
most 22; the unpruned enumeration lists `2 ^ n` plans, and they are the
order-preserving subsequences of the available list. -/
theorem generateAllValidSchedules_eq_unpruned_filter (available : List Course)
    (hpos : ∀ c ∈ available, c.credits > 0) :
    generateAllValidSchedules available
      = (unprunedPlans available).filter
          (fun p => decide ((p.map Course.credits).sum ≤ 22)) ∧
    (unprunedPlans available).length = 2 ^ available.length ∧
    (∀ p : List Course, p ∈ unprunedPlans available ↔ p.Sublist available) := by
  refine ⟨?_, ?_, ?_⟩
  · rw [generateAllValidSchedules_eq_plansFrom, plansFrom_eq_filter available 0 hpos]
    apply List.filter_congr
    intro p _
    simp [planCredits, MAX_CREDITS]
  · rw [unprunedPlans_eq_sublists, List.length_sublists']
  · intro p
    rw [unprunedPlans_eq_sublists, List.mem_sublists']

/-- Witness of C18 on the three courses open to the default user of the source. -/
theorem generateAllValidSchedules_eq_unpruned_filter_witness :
    (∀ c ∈ [cs102, cs103, math202], c.credits > 0) ∧
    generateAllValidSchedules [cs102, cs103, math202]
      = (unprunedPlans [cs102, cs103, math202]).filter
          (fun p => decide ((p.map Course.credits).sum ≤ 22)) :=
  ⟨by decide,
   (generateAllValidSchedules_eq_unpruned_filter [cs102, cs103, math202] (by decide)).1⟩

/-! ## The concrete scenario -/

theorem head_of_sorted_perm (g_user : UserProgress) (sorted plans : List (List Course))
    (best : List Course) (hperm : sorted.Perm plans)
    (hpw : sorted.Pairwise
      (fun a b => calculatePlanScore g_user b ≤ calculatePlanScore g_user a))
    (hbest : best ∈ plans)
    (hmax : ∀ x ∈ plans, x ≠ best →
      calculatePlanScore g_user x < calculatePlanScore g_user best) :
    sorted.head? = some best := by
  cases sorted with
  | nil => exact absurd (hperm.symm.subset hbest) (List.not_mem_nil _)
  | cons h t =>
    have hh : h = best := by
      by_contra hne
      have hlt := hmax h (hperm.subset (List.mem_cons_self _ _)) hne
      rcases List.mem_cons.mp (hperm.symm.subset hbest) with heq | hin
      · exact hne heq.symm
      · have := (List.pairwise_cons.mp hpw).1 best hin
        exact absurd hlt (not_lt.mpr this)
    simp [hh]

theorem scenarioPlans :
    generateAllValidSchedules [cs102, math201]
      = [[], [math201], [cs102], [cs102, math201]] := by
  rw [generateAllValidSchedules_eq_plansFrom]
  decide

theorem scenarioScores :
    calculatePlanScore scenarioUser [] = 0 ∧
    calculatePlanScore scenarioUser [math201] = 163 / 220 ∧
    calculatePlanScore scenarioUser [cs102] = 163 / 220 ∧
    calculatePlanScore scenarioUser [cs102, math201] = 43 / 55 := by
  refine ⟨?_, ?_, ?_, ?_⟩ <;>
  · simp [calculatePlanScore, planTotals, calculateInterestScore, countMatches,
      tagMatchesInterest, scenarioUser, cs102, math201, MAX_CREDITS]
    try norm_num

theorem scenarioMeans :
    meanInterest scenarioUser [cs102] = 1 ∧
    meanInterest scenarioUser [math201] = 1 ∧
    meanInterest scenarioUser [cs102, math201] = 1 := by
  refine ⟨?_, ?_, ?_⟩ <;>
  · simp [meanInterest, calculateInterestScore, countMatches, tagMatchesInterest,
      scenarioUser, cs102, math201]
    try norm_num

/-- C16: in the scenario (catalog CS101, CS102, MATH201; CS101 completed; interest AI)
the available list is `[CS102, MATH201]`, `generateAllValidSchedules` yields exactly
the four plans `[]`, `[MATH201]`, `[CS102]`, `[CS102, MATH201]`, each non-empty plan
has mean interest 1, and the first plan returned by `getTopRecommendations(3)` is the
combined plan `[CS102, MATH201]`. -/
theorem scenario_results
    (sort : (List Course → List Course → Bool) → List (List Course) → List (List Course))
    (hsort : StdSortContract sort) :
    availableCourses scenarioCatalog scenarioUser = [cs102, math201] ∧
    generateAllValidSchedules [cs102, math201]
      = [[], [math201], [cs102], [cs102, math201]] ∧
    meanInterest scenarioUser [cs102] = 1 ∧
    meanInterest scenarioUser [math201] = 1 ∧
    meanInterest scenarioUser [cs102, math201] = 1 ∧
    (getTopRecommendations sort scenarioCatalog scenarioUser 3).head?
      = some [cs102, math201] := by
  have ha : availableCourses scenarioCatalog scenarioUser = [cs102, math201] := by decide
  obtain ⟨h0, h1, h2, h3⟩ := scenarioScores
  refine ⟨ha, scenarioPlans, scenarioMeans.1, scenarioMeans.2.1, scenarioMeans.2.2, ?_⟩
  obtain ⟨hperm, hpw⟩ := sorted_plans_spec hsort scenarioUser
    (generateAllValidSchedules [cs102, math201])
  have hhead := head_of_sorted_perm scenarioUser _ _ [cs102, math201] hperm hpw
    (by rw [scenarioPlans]; decide)
    (by
      rw [scenarioPlans]
      intro x hx hne
      simp only [List.mem_cons, List.mem_singleton, List.not_mem_nil, or_false] at hx
      rcases hx with rfl | rfl | rfl | rfl
      · rw [h0, h3]; norm_num
      · rw [h1, h3]; norm_num
      · rw [h2, h3]; norm_num
      · exact absurd rfl hne)
  rw [getTopRecommendations_eq, ha, if_neg (by decide), List.head?_take, if_neg (by decide)]
  exact hhead

/-- Witness of C16 with insertion sort as the sorting routine. -/
theorem scenario_results_witness :
    StdSortContract insertionSortBy ∧
    (getTopRecommendations insertionSortBy scenarioCatalog scenarioUser 3).head?
      = some [cs102, math201] :=
  ⟨insertionSortBy_contract,
   (scenario_results insertionSortBy insertionSortBy_contract).2.2.2.2.2⟩

/-! ## The empty plan among the recommendations -/

theorem nearlyDonePlans :
    generateAllValidSchedules (availableCourses builtinCourses nearlyDoneUser)
      = [[], [cs202]] := by
  rw [generateAllValidSchedules_eq_plansFrom]
  decide

theorem nearlyDoneScores :
    calculatePlanScore nearlyDoneUser [] = 0 ∧
    calculatePlanScore nearlyDoneUser [cs202] = 163 / 220 := by
  refine ⟨?_, ?_⟩ <;>
  · simp [calculatePlanScore, planTotals, calculateInterestScore, countMatches,
      tagMatchesInterest, nearlyDoneUser, cs202, MAX_CREDITS]
    try norm_num

theorem nearlyDoneTop_insertionSortBy :
    getTopRecommendations insertionSortBy builtinCourses nearlyDoneUser 3
      = [[cs202], []] := by
  obtain ⟨h0, h1⟩ := nearlyDoneScores
  have ha : availableCourses builtinCourses nearlyDoneUser ≠ [] := by decide
  rw [getTopRecommendations_eq, if_neg ha, nearlyDonePlans]
  norm_num [insertionSortBy, List.insertionSort, List.orderedInsert, scoreGreater, h0, h1,
    toSizeT]

/-- C19, the code at the failing input: for the built-in catalog and a user who has
completed every course except `CS202`, the available list is `[CS202]`, the plans
returned by `getTopRecommendations(3)` are `[CS202]` and the empty plan, and the
divisors `plan.size()` used by `displayRecommendations` are 1 and 0. -/
theorem displayRecommendations_divisor_zero :
    availableCourses builtinCourses nearlyDoneUser = [cs202] ∧
    getTopRecommendations insertionSortBy builtinCourses nearlyDoneUser 3 = [[cs202], []] ∧
    displayRecommendationsDivisors insertionSortBy builtinCourses nearlyDoneUser = [1, 0] := by
  refine ⟨by decide, nearlyDoneTop_insertionSortBy, ?_⟩
  rw [displayRecommendationsDivisors, nearlyDoneTop_insertionSortBy]
  rfl

end CoursePlanner
